import Mathlib

/-!
# Verification of oniongen.c

A shallow embedding of `oniongen.c`, a vanity .onion address generator, and
proofs of the specification's claims about it.

Modelling conventions:
* Bytes are `Nat` values `< 256` (the C code casts `char` to `uint8_t` before
  arithmetic); byte buffers are `List Nat`.
* C strings are `List Char` (no NUL terminator; a C string cannot contain NUL).
* A C `assert` that aborts is modelled by returning `none` from an
  `Option`-valued function.
* External cryptographic primitives (OpenSSL's `RSA_generate_key`, `SHA1`,
  `i2d_RSAPublicKey`) are abstract parameters constrained only by their
  interface contracts (e.g. SHA1 yields 20 bytes).
* The unbounded `do … while` search loop is modelled with an explicit fuel
  argument; termination statements quantify over sufficient fuel.
-/

namespace Oniongen

/-- The base32 alphabet from `base32_encode` (oniongen.c line 206). -/
def BASE32_CHARS : List Char := "abcdefghijklmnopqrstuvwxyz234567".toList

/-- The loop body of `base32_encode` (oniongen.c lines 211-217): the 5-bit
value `u` extracted at bit offset `bit` of the bitstream of `src`.
`v` is the 16-bit value at `src[bit/8]`, zero-padded, with the lookahead byte
added only when `bit + 5 < nbits`; `u = (v >> (11 - bit % 8)) & 0x1F`. -/
def base32_u (src : List Nat) (nbits bit : Nat) : Nat :=
  let v := src.getD (bit / 8) 0 * 256 +
    (if bit + 5 < nbits then src.getD (bit / 8 + 1) 0 else 0)
  v / 2 ^ (11 - bit % 8) % 32

/-- `base32_encode` (oniongen.c lines 202-220).  The two `assert`s (bit count
a multiple of 5, room for the result plus the terminator) become `none`; the
loop `for (i=0,bit=0; bit < nbits; ++i, bit+=5)` runs `nbits / 5` times once
the first assert has passed, writing `BASE32_CHARS[u]` at each step.  The
trailing NUL written to `dest[i]` is implicit in the `List Char` model. -/
def base32_encode (destlen : Nat) (src : List Nat) : Option (List Char) :=
  let nbits := src.length * 8
  if nbits % 5 = 0 then
    if nbits / 5 + 1 ≤ destlen then
      some ((List.range (nbits / 5)).map fun i =>
        BASE32_CHARS.getD (base32_u src nbits (5 * i)) ' ')
    else none
  else none

/-- `REND_SERVICE_ID_LEN_BASE32` (oniongen.c line 54). -/
def REND_SERVICE_ID_LEN_BASE32 : Nat := 16

/-- `REND_SERVICE_ID_LEN` (oniongen.c line 55). -/
def REND_SERVICE_ID_LEN : Nat := 10

/-- `DIGEST_LEN` (oniongen.c line 57). -/
def DIGEST_LEN : Nat := 20

/-- `crypto_digest` (oniongen.c lines 198-200): just SHA1, which is an
external primitive, passed in as a parameter. -/
def crypto_digest (sha1 : List Nat → List Nat) (m : List Nat) : List Nat :=
  sha1 m

/-- `crypto_pk_get_digest` (oniongen.c lines 179-196): the digest of the
DER-encoded public key.  `i2d_RSAPublicKey` is the external `der` parameter;
keys are an abstract type `K`. -/
def crypto_pk_get_digest {K : Type} (sha1 : List Nat → List Nat)
    (der : K → List Nat) (pk : K) : List Nat :=
  crypto_digest sha1 (der pk)

/-- `rend_get_service_id` (oniongen.c lines 170-177): base32-encode the first
`REND_SERVICE_ID_LEN = 10` bytes of the 20-byte digest into a buffer of
`REND_SERVICE_ID_LEN_BASE32 + 1 = 17` characters (passing `srclen = 10`
truncates the digest). -/
def rend_get_service_id {K : Type} (sha1 : List Nat → List Nat)
    (der : K → List Nat) (pk : K) : Option (List Char) :=
  base32_encode (REND_SERVICE_ID_LEN_BASE32 + 1)
    ((crypto_pk_get_digest sha1 der pk).take REND_SERVICE_ID_LEN)

/-- `pattern_is_not_too_long` (oniongen.c lines 112-115). -/
def pattern_is_not_too_long (pattern : List Char) : Bool :=
  pattern.length ≤ REND_SERVICE_ID_LEN_BASE32

/-- `islower` from `<ctype.h>` in the default C locale: true exactly on the
ASCII range 'a'..'z' (97..122). -/
def islower (c : Char) : Bool :=
  97 ≤ c.toNat && c.toNat ≤ 122

/-- `pattern_has_valid_chars` (oniongen.c lines 118-132).  The entry `assert`
of `pattern_is_not_too_long` becomes the `none` case.  The per-character test
is transcribed exactly as written in the C source:
`islower(pattern[i]) || (pattern[i] >= 2 && pattern[i] <= 7)` — note that it
compares the raw character value against 2..7, not against '2'..'7'. -/
def pattern_has_valid_chars (pattern : List Char) : Option Bool :=
  if pattern_is_not_too_long pattern then
    some (pattern.all fun c => islower c || (2 ≤ c.toNat && c.toNat ≤ 7))
  else
    none

/-- `strncmp` from `<string.h>`, on NUL-free `List Char` strings with the
terminating NUL implicit at the end of each list: compare at most `n`
characters, stopping at the first difference or at a terminator. -/
def strncmp : List Char → List Char → Nat → Int
  | _, _, 0 => 0
  | [], [], _ + 1 => 0
  | [], d :: _, _ + 1 => 0 - (d.toNat : Int)
  | c :: _, [], _ + 1 => (c.toNat : Int)
  | c :: a, d :: b, n + 1 =>
    if c = d then strncmp a b n else (c.toNat : Int) - (d.toNat : Int)

/-- `pattern_matches_service_id` (oniongen.c lines 164-166):
`strncmp(pattern, service_id, strlen(pattern)) == 0`. -/
def pattern_matches_service_id (pattern service_id : List Char) : Bool :=
  strncmp pattern service_id pattern.length == 0

/-- The `do … while` loop of `generate_service` (oniongen.c lines 97-104),
with the external key generator modelled as a stream `gen` of fresh keys
(trial `n` uses key `gen n`), the derivation `rend_get_service_id` abstracted
to `derive`, and an explicit fuel bound: `none` means the fuel ran out before
a match. -/
def search_loop {K : Type} (gen : Nat → K) (derive : K → List Char)
    (pattern : List Char) : Nat → Nat → Option K
  | 0, _ => none
  | fuel + 1, n =>
    let private_key := gen n
    let service_id := derive private_key
    if pattern_matches_service_id pattern service_id then some private_key
    else search_loop gen derive pattern fuel (n + 1)

/-- `generate_service` (oniongen.c lines 85-109): validate the pattern with
the two `assert`s (lines 93-94, in source order; a failed assert is `none`),
then run the brute-force loop.  The returned key is the one handed to
`export_private_key`. -/
def generate_service {K : Type} (gen : Nat → K) (derive : K → List Char)
    (pattern : List Char) (fuel : Nat) : Option K :=
  if pattern_is_not_too_long pattern then
    match pattern_has_valid_chars pattern with
    | some true => search_loop gen derive pattern fuel 0
    | _ => none
  else none

/-- `main` (oniongen.c lines 74-80): run `generate_service` on `argv[1]` only
when `argc == 2`, and return exit status 0 in every case.  The result pair
records what the search produced (if it ran) and the exit status. -/
def main {K : Type} (gen : Nat → K) (derive : K → List Char) (fuel : Nat)
    (argv : List (List Char)) : Option K × Nat :=
  if argv.length = 2 then
    (generate_service gen derive (argv.getD 1 []) fuel, 0)
  else
    (none, 0)

/-- Validation error kinds from §4.1 of the specification. -/
inductive ValidationError
  | TooLong
  | InvalidCharacter
deriving DecidableEq

/-- The spec's `validate` contract (§4.1), realised by the source's two
checks in the order `generate_service` asserts them (oniongen.c lines 93-94):
a pattern longer than the service-id length fails with `TooLong`, otherwise a
pattern rejected by `pattern_has_valid_chars` fails with `InvalidCharacter`,
otherwise validation succeeds (`none` = no error). -/
def validate (pattern : List Char) : Option ValidationError :=
  if pattern_is_not_too_long pattern then
    if pattern_has_valid_chars pattern = some true then none
    else some ValidationError.InvalidCharacter
  else some ValidationError.TooLong

/-- Spec-side definition (§4.2): bit `j` of the bitstream of `src`,
most-significant-bit first within each byte, zero past the end. -/
def specBit (src : List Nat) (j : Nat) : Nat :=
  src.getD (j / 8) 0 / 2 ^ (7 - j % 8) % 2

/-- Spec-side definition (§4.2): the value of the `i`-th non-overlapping
5-bit window of the bitstream of `src` (bits `5*i` to `5*i+4`, MSB first). -/
def specWindow (src : List Nat) (i : Nat) : Nat :=
  specBit src (5 * i) * 16 + specBit src (5 * i + 1) * 8 +
    specBit src (5 * i + 2) * 4 + specBit src (5 * i + 3) * 2 +
    specBit src (5 * i + 4)

/-- Two-byte bit selector: bit `q` (0 = MSB of the first byte, 15 = LSB of
the second byte) of the pair of bytes `x`, `y`; used to relate the encoder's
16-bit window arithmetic to the spec's bitstream. -/
def tb (x y q : Nat) : Nat :=
  if q ≤ 7 then x / 2 ^ (7 - q) % 2 else y / 2 ^ (15 - q) % 2

theorem getD_lt_256 (src : List Nat) (h : ∀ a ∈ src, a < 256) (n : Nat) :
    src.getD n 0 < 256 := by
  rcases Nat.lt_or_ge n src.length with hn | hn
  · rw [List.getD_eq_getElem src 0 hn]
    exact h _ (List.getElem_mem hn)
  · rw [List.getD_eq_default src 0 hn]
    norm_num

/-- A 5-bit slice of the 16-bit value `x * 256 + y` taken at shift
`11 - r` equals the sum of the five bits at positions `r … r+4`. -/
theorem extract5_eq (x y r : Nat) (hx : x < 256) (hy : y < 256) (hr : r ≤ 7) :
    (x * 256 + y) / 2 ^ (11 - r) % 32 =
      tb x y r * 16 + tb x y (r + 1) * 8 + tb x y (r + 2) * 4 +
        tb x y (r + 3) * 2 + tb x y (r + 4) := by
  interval_cases r <;> simp [tb] <;> omega

/-- The spec's bitstream bit at position `8*b + r + k` is the corresponding
bit of the byte pair `src[b]`, `src[b+1]`. -/
theorem specBit_decomp (src : List Nat) (b r k : Nat) (hr : r ≤ 7)
    (hk : k ≤ 4) :
    specBit src (8 * b + r + k) =
      tb (src.getD b 0) (src.getD (b + 1) 0) (r + k) := by
  unfold specBit tb
  rcases le_or_lt (r + k) 7 with h | h
  · rw [show (8 * b + r + k) / 8 = b from by omega,
      show (8 * b + r + k) % 8 = r + k from by omega, if_pos h]
  · rw [show (8 * b + r + k) / 8 = b + 1 from by omega,
      show (8 * b + r + k) % 8 = r + k - 8 from by omega,
      if_neg (by omega), show 7 - (r + k - 8) = 15 - (r + k) from by omega]

/-- The encoder's loop-body value `u` at window `i` equals the spec's
`i`-th 5-bit window of the bitstream. -/
theorem base32_u_eq_specWindow (src : List Nat) (hsrc : ∀ a ∈ src, a < 256)
    (h5 : src.length * 8 % 5 = 0) (i : Nat) (hi : i < src.length * 8 / 5) :
    base32_u src (src.length * 8) (5 * i) = specWindow src i := by
  have hx : ∀ n, src.getD n 0 < 256 := getD_lt_256 src hsrc
  obtain ⟨b, r, hr, hbr⟩ : ∃ b r, r ≤ 7 ∧ 5 * i = 8 * b + r :=
    ⟨5 * i / 8, 5 * i % 8, by omega, by omega⟩
  simp only [base32_u, specWindow]
  rw [hbr]
  rw [show (8 * b + r) / 8 = b from by omega,
    show (8 * b + r) % 8 = r from by omega]
  have d0 : specBit src (8 * b + r) =
      tb (src.getD b 0) (src.getD (b + 1) 0) r := by
    simpa using specBit_decomp src b r 0 hr (by norm_num)
  by_cases h : 8 * b + r + 5 < src.length * 8
  · rw [if_pos h,
      extract5_eq (src.getD b 0) (src.getD (b + 1) 0) r (hx b) (hx (b + 1)) hr,
      d0, specBit_decomp src b r 1 hr (by norm_num),
      specBit_decomp src b r 2 hr (by norm_num),
      specBit_decomp src b r 3 hr (by norm_num),
      specBit_decomp src b r 4 hr (by norm_num)]
  · have hr3 : r = 3 := by
      obtain ⟨m, hm⟩ : ∃ m, src.length = 5 * m := ⟨src.length / 5, by omega⟩
      rw [hm] at hi h
      have h1 : i < 8 * m := by omega
      have h2 : 8 * b + r + 5 = 40 * m := by omega
      omega
    rw [if_neg h,
      extract5_eq (src.getD b 0) 0 r (hx b) (by norm_num) hr,
      d0, specBit_decomp src b r 1 hr (by norm_num),
      specBit_decomp src b r 2 hr (by norm_num),
      specBit_decomp src b r 3 hr (by norm_num),
      specBit_decomp src b r 4 hr (by norm_num), hr3]
    simp [tb]

/-- C1: for every byte sequence whose bit length is a multiple of 5 (and a
large enough destination buffer, as the source asserts), `base32_encode`
succeeds and outputs exactly `len(src)*8/5` characters with no padding,
the `i`-th character being `BASE32_CHARS` indexed by the value of the `i`-th
non-overlapping 5-bit window of `src`, MSB first within each byte. -/
theorem base32_encode_windows (src : List Nat) (hsrc : ∀ a ∈ src, a < 256)
    (destlen : Nat) (h5 : src.length * 8 % 5 = 0)
    (hdest : src.length * 8 / 5 + 1 ≤ destlen) :
    ∃ out, base32_encode destlen src = some out ∧
      out.length = src.length * 8 / 5 ∧
      ∀ i, i < src.length * 8 / 5 →
        out.getD i ' ' = BASE32_CHARS.getD (specWindow src i) ' ' := by
  refine ⟨(List.range (src.length * 8 / 5)).map fun i =>
    BASE32_CHARS.getD (base32_u src (src.length * 8) (5 * i)) ' ', ?_, ?_, ?_⟩
  · simp only [base32_encode]
    rw [if_pos h5, if_pos hdest]
  · simp
  · intro i hi
    have hlen : i < ((List.range (src.length * 8 / 5)).map fun i =>
        BASE32_CHARS.getD (base32_u src (src.length * 8) (5 * i)) ' ').length := by
      simpa using hi
    rw [List.getD_eq_getElem _ ' ' hlen, List.getElem_map,
      List.getElem_range, base32_u_eq_specWindow src hsrc h5 i hi]

/-- C1 witness at the concrete input `[255, 0, 119, 1, 34]`
(5 bytes = 40 bits = 8 windows). -/
theorem base32_encode_windows_witness :
    (∀ a ∈ ([255, 0, 119, 1, 34] : List Nat), a < 256) ∧
    (∃ out, base32_encode 9 ([255, 0, 119, 1, 34] : List Nat) = some out ∧
      out.length = ([255, 0, 119, 1, 34] : List Nat).length * 8 / 5 ∧
      ∀ i, i < ([255, 0, 119, 1, 34] : List Nat).length * 8 / 5 →
        out.getD i ' ' =
          BASE32_CHARS.getD (specWindow ([255, 0, 119, 1, 34] : List Nat) i) ' ') :=
  ⟨by decide,
    base32_encode_windows ([255, 0, 119, 1, 34] : List Nat) (by decide) 9
      (by decide) (by decide)⟩

theorem base32_u_lt (src : List Nat) (nbits bit : Nat) :
    base32_u src nbits bit < 32 := by
  simp only [base32_u]
  exact Nat.mod_lt _ (by norm_num)

/-- C2: the identifier derivation digests the DER-encoded public key,
truncates the 20-byte digest to its first 10 bytes and base32-encodes them;
under the digest primitive's interface contract (20 output bytes) the
resulting service identifier has length exactly 16 and every character lies
in `BASE32_CHARS`. -/
theorem rend_get_service_id_spec {K : Type} (sha1 : List Nat → List Nat)
    (der : K → List Nat) (pk : K)
    (hlen : (sha1 (der pk)).length = DIGEST_LEN)
    (hbytes : ∀ a ∈ sha1 (der pk), a < 256) :
    ∃ s, rend_get_service_id sha1 der pk = some s ∧
      s.length = REND_SERVICE_ID_LEN_BASE32 ∧ ∀ c ∈ s, c ∈ BASE32_CHARS := by
  simp only [DIGEST_LEN] at hlen
  have h10 : ((crypto_pk_get_digest sha1 der pk).take
      REND_SERVICE_ID_LEN).length = 10 := by
    simp [crypto_pk_get_digest, crypto_digest, REND_SERVICE_ID_LEN, hlen]
  simp only [rend_get_service_id, base32_encode, REND_SERVICE_ID_LEN_BASE32,
    h10]
  rw [if_pos trivial, if_pos (show 10 * 8 / 5 + 1 ≤ 16 + 1 by norm_num)]
  refine ⟨_, rfl, ?_, ?_⟩
  · simp
  · intro c hc
    simp only [List.mem_map, List.mem_range] at hc
    obtain ⟨i, hi, rfl⟩ := hc
    have hlt : base32_u ((crypto_pk_get_digest sha1 der pk).take
        REND_SERVICE_ID_LEN) (10 * 8) (5 * i) < BASE32_CHARS.length := by
      simpa [BASE32_CHARS] using
        base32_u_lt ((crypto_pk_get_digest sha1 der pk).take
          REND_SERVICE_ID_LEN) (10 * 8) (5 * i)
    rw [List.getD_eq_getElem _ ' ' hlt]
    exact List.getElem_mem hlt

/-- C2 witness with a concrete digest oracle returning the 20 bytes
`0, 1, …, 19`. -/
theorem rend_get_service_id_spec_witness :
    ((fun _ : List Nat => List.range 20)
        ((fun _ : Unit => ([] : List Nat)) ())).length = DIGEST_LEN ∧
    (∀ a ∈ (fun _ : List Nat => List.range 20)
        ((fun _ : Unit => ([] : List Nat)) ()), a < 256) ∧
    ∃ s, rend_get_service_id (fun _ => List.range 20)
        (fun _ : Unit => ([] : List Nat)) () = some s ∧
      s.length = REND_SERVICE_ID_LEN_BASE32 ∧ ∀ c ∈ s, c ∈ BASE32_CHARS :=
  ⟨by decide, by decide,
    rend_get_service_id_spec (fun _ => List.range 20)
      (fun _ : Unit => ([] : List Nat)) () (by decide) (by decide)⟩

/-- C3, evaluated at the failing input: the source's character check rejects
the pattern "abc234" (the spec says it is valid), because line 126 compares
the character value against 2..7 instead of the characters '2'..'7'; for the
same reason it accepts a pattern containing the control character STX
(byte value 2), which is not in the base32 alphabet. -/
theorem pattern_has_valid_chars_digit_bug :
    pattern_has_valid_chars "abc234".toList = some false ∧
    pattern_has_valid_chars ['a', Char.ofNat 2] = some true := by
  decide

theorem char_toNat_injective (c d : Char) (h : c.toNat = d.toNat) : c = d :=
  Char.ext (UInt32.ext h)

/-- C4: the matcher returns true iff the identifier's leading
`length(pattern)` characters equal the pattern byte-for-byte
(case-sensitive); in particular the empty pattern matches every identifier.
The hypothesis that the pattern has no NUL character is the C-string
representation invariant. -/
theorem pattern_matches_service_id_iff (pattern service_id : List Char)
    (hnnul : ∀ c ∈ pattern, c.toNat ≠ 0) :
    pattern_matches_service_id pattern service_id = true ↔
      service_id.take pattern.length = pattern := by
  suffices h : ∀ pat : List Char, (∀ c ∈ pat, c.toNat ≠ 0) →
      ∀ sid : List Char,
        pattern_matches_service_id pat sid = true ↔
          sid.take pat.length = pat from
    h pattern hnnul service_id
  intro pat
  induction pat with
  | nil =>
    intro _ sid
    simp [pattern_matches_service_id, strncmp]
  | cons c p ih =>
    intro hn sid
    have hc : c.toNat ≠ 0 := hn c (List.mem_cons_self c p)
    cases sid with
    | nil =>
      simp only [pattern_matches_service_id, List.length_cons, strncmp,
        List.take_nil, beq_iff_eq]
      constructor
      · intro h
        exact absurd (by exact_mod_cast h) hc
      · intro h
        exact absurd h (by simp)
    | cons d s =>
      simp only [pattern_matches_service_id, List.length_cons, strncmp,
        List.take_succ_cons]
      by_cases hcd : c = d
      · subst hcd
        rw [if_pos rfl]
        have hih := ih (fun x hx => hn x (List.mem_cons_of_mem c hx)) s
        simp only [pattern_matches_service_id] at hih
        rw [hih]
        simp
      · rw [if_neg hcd]
        constructor
        · intro h
          have hz : (c.toNat : Int) - (d.toNat : Int) = 0 := by simpa using h
          have heq : c.toNat = d.toNat := by omega
          exact absurd (char_toNat_injective c d heq) hcd
        · intro h
          have hpair := List.cons.injEq d (s.take p.length) c p ▸ h
          exact absurd hpair.1.symm hcd

/-- C4 witness at the spec's own examples: "abc" against
"abcdefghij234567" (a match: the iff's right side holds). -/
theorem pattern_matches_service_id_iff_witness :
    (∀ c ∈ "abc".toList, c.toNat ≠ 0) ∧
    (pattern_matches_service_id "abc".toList "abcdefghij234567".toList =
        true ↔
      "abcdefghij234567".toList.take "abc".toList.length = "abc".toList) :=
  ⟨by decide,
    pattern_matches_service_id_iff "abc".toList "abcdefghij234567".toList
      (by decide)⟩

theorem search_loop_finds {K : Type} (gen : Nat → K)
    (derive : K → List Char) (pattern : List Char) (k : Nat)
    (hk : pattern_matches_service_id pattern (derive (gen k)) = true)
    (hmin : ∀ j, j < k →
      pattern_matches_service_id pattern (derive (gen j)) = false) :
    ∀ fuel n, n ≤ k → k - n < fuel →
      search_loop gen derive pattern fuel n = some (gen k) := by
  intro fuel
  induction fuel with
  | zero =>
    intro n hn hf
    omega
  | succ f ih =>
    intro n hn hf
    rcases eq_or_lt_of_le hn with rfl | hlt
    · simp [search_loop, hk]
    · have hnm := hmin n hlt
      simp only [search_loop, hnm, Bool.false_eq_true, if_false]
      exact ih (n + 1) (by omega) (by omega)

/-- C5: for a valid pattern and a key stream whose trial `k` is the first
whose derived identifier matches, the search loop terminates (any fuel
beyond `k` suffices) and returns exactly the keypair of that first matching
trial; no earlier keypair is returned. -/
theorem generate_service_first_match {K : Type} (gen : Nat → K)
    (derive : K → List Char) (pattern : List Char)
    (hvalid : pattern_has_valid_chars pattern = some true) (k : Nat)
    (hk : pattern_matches_service_id pattern (derive (gen k)) = true)
    (hmin : ∀ j, j < k →
      pattern_matches_service_id pattern (derive (gen j)) = false)
    (fuel : Nat) (hfuel : k < fuel) :
    generate_service gen derive pattern fuel = some (gen k) := by
  have hlong : pattern_is_not_too_long pattern = true := by
    by_contra h
    rw [Bool.not_eq_true] at h
    simp [pattern_has_valid_chars, h] at hvalid
  simp only [generate_service, hlong, if_true, hvalid]
  exact search_loop_finds gen derive pattern k hk hmin fuel 0 (by omega)
    (by omega)

/-- C5 witness: a mocked key stream (keys are their trial numbers) whose
derived identifiers miss at trial 0 and match the pattern "abc" at
trial 1; the loop returns keypair 1. -/
theorem generate_service_first_match_witness :
    pattern_has_valid_chars "abc".toList = some true ∧
    pattern_matches_service_id "abc".toList
      ((fun n : Nat => if n = 1 then "abcdefghij234567".toList
        else "qqqqqqqqqqqqqqqq".toList) ((fun n : Nat => n) 1)) = true ∧
    generate_service (fun n : Nat => n)
      (fun n => if n = 1 then "abcdefghij234567".toList
        else "qqqqqqqqqqqqqqqq".toList)
      "abc".toList 2 = some 1 :=
  ⟨by decide, by decide,
    generate_service_first_match (fun n : Nat => n)
      (fun n => if n = 1 then "abcdefghij234567".toList
        else "qqqqqqqqqqqqqqqq".toList)
      "abc".toList (by decide) 1 (by decide)
      (fun j hj => by
        have hj0 : j = 0 := by omega
        subst hj0
        decide)
      2 (by norm_num)⟩

/-- C6: validation fails with `TooLong` exactly when the pattern is strictly
longer than the 16-character service-identifier length; a pattern of length
at most 16 is never rejected as too long. -/
theorem validate_tooLong_iff (pattern : List Char) :
    validate pattern = some ValidationError.TooLong ↔
      REND_SERVICE_ID_LEN_BASE32 < pattern.length := by
  by_cases h : pattern.length ≤ REND_SERVICE_ID_LEN_BASE32
  · have hlong : pattern_is_not_too_long pattern = true := by
      simp [pattern_is_not_too_long, h]
    simp only [validate, hlong, if_true]
    constructor
    · intro hcontra
      split at hcontra <;> simp_all
    · intro hlt
      omega
  · have hlong : pattern_is_not_too_long pattern = false := by
      simp [pattern_is_not_too_long]
      omega
    simp only [validate, hlong, Bool.false_eq_true, if_false]
    simp
    omega

/-- C7: the base32 encoder applied to the 10-byte all-zero sequence (with
the buffer size used by `rend_get_service_id`) yields sixteen 'a'
characters. -/
theorem base32_encode_zero_bytes :
    base32_encode 17 (List.replicate 10 0) =
      some "aaaaaaaaaaaaaaaa".toList := by
  decide

/-- C8 counterexample: the string "toolongpattern!!" has 16 characters, not
17 as the spec counts, so its validation does not fail with `TooLong`. -/
theorem validate_toolongpattern_not_tooLong :
    ¬ validate "toolongpattern!!".toList = some ValidationError.TooLong := by
  decide

/-- C8 as amended: validation of "toolongpattern!!" (16 characters, within
the length limit) fails with `InvalidCharacter`, because '!' is not a valid
pattern character. -/
theorem validate_toolongpattern_invalidChar :
    validate "toolongpattern!!".toList =
      some ValidationError.InvalidCharacter := by
  decide

/-- C9: invoked with an argument count other than 2, `main` runs no
validation, key generation or search (its result does not depend on the key
stream, the deriver or the fuel, and no keypair is produced) and exits with
status 0. -/
theorem main_wrong_argc {K : Type} (gen : Nat → K) (derive : K → List Char)
    (fuel : Nat) (argv : List (List Char)) (h : argv.length ≠ 2) :
    main gen derive fuel argv = (none, 0) := by
  simp only [main, h, if_false]

/-- C9 witness at the empty argument vector. -/
theorem main_wrong_argc_witness :
    ([] : List (List Char)).length ≠ 2 ∧
    main (fun n : Nat => n) (fun _ => ([] : List Char)) 0
      ([] : List (List Char)) = (none, 0) :=
  ⟨by decide,
    main_wrong_argc (fun n : Nat => n) (fun _ => ([] : List Char)) 0
      ([] : List (List Char)) (by decide)⟩

/-- C10: `pattern_has_valid_chars` hits its entry assertion (aborts, i.e.
returns `none`) exactly when the pattern is longer than 16 characters; on a
pattern of length at most 16 the assertion never fires and a boolean is
returned. -/
theorem pattern_has_valid_chars_none_iff (pattern : List Char) :
    pattern_has_valid_chars pattern = none ↔
      REND_SERVICE_ID_LEN_BASE32 < pattern.length := by
  by_cases h : pattern.length ≤ REND_SERVICE_ID_LEN_BASE32
  · have hlong : pattern_is_not_too_long pattern = true := by
      simp [pattern_is_not_too_long, h]
    simp [pattern_has_valid_chars, hlong]
    omega
  · have hlong : pattern_is_not_too_long pattern = false := by
      simp [pattern_is_not_too_long]
      omega
    simp [pattern_has_valid_chars, hlong]
    omega

end Oniongen
